import Mathlib

/-!
Verification of the bitemporal interval engine of the `mora` repository.

The definitions below are shallow embeddings of the Python source:

* `_is_date_range_valid`, `is_candidate_parent_valid` (with its inner
  `is_node_valid` walk), `_get_org_unit_endpoint_date` and
  `is_inactivation_date_valid` come from `src/mora/validator.py`;
* the request-handler lifecycle (validate on init, write on submit) comes
  from `src/backend/mora/service/handlers.py` together with
  `src/backend/mora/service/association.py` and `src/mora/api.py`;
* the edit splicer is modelled from the specification, since
  `mora/common.py` is not part of the provided sources.

Timestamps are modelled as integers extended with the two sentinels
`-infinity` (`⊥`) and `infinity` (`⊤`), exactly the value space the store
exchanges with the engine.  A concrete date such as 2017-01-01 is encoded
as the integer 20170101; the encoding is monotone for the dates used here.
Store lookups (the LoRa connector) are modelled by passing the fetched
values directly as arguments, and the effects returned by a store scope
are modelled as explicit lists.
-/

/-- A timestamp: an integer date extended with `-infinity` and `infinity`. -/
abbrev Time : Type := WithBot (WithTop ℤ)

/-- A finite timestamp. -/
def Time.fin (n : ℤ) : Time := ((n : WithTop ℤ) : Time)

/-- One effect slice as returned by `lora_scope.get_effects`: a start, an
end, and the list of `gyldighed` values found under the requested
`tilstande` key. -/
structure Effect where
  start : Time
  stop : Time
  gyldigheder : List String
  deriving DecidableEq, Repr

/-- The loop of `_is_date_range_valid` (`src/mora/validator.py`,
lines 32-60).  The accumulator is the Python variable `previous_end`
(`none` in the initial case).  After the loop the function returns
`previous_end is not None and previous_end >= enddate`. -/
def dateRangeLoop (startdate enddate : Time) : Option Time → List Effect → Bool
  | none, [] => false
  | some prev, [] => decide (prev ≥ enddate)
  | prev, e :: rest =>
    let boundaryOk : Bool :=
      match prev with
      | none => ! decide (startdate < e.start)
      | some p => decide (e.start = p)
    if ! boundaryOk then
      false
    else if e.gyldigheder.isEmpty || e.gyldigheder.any (fun v => v ≠ "Aktiv") then
      false
    else
      dateRangeLoop startdate enddate (some e.stop) rest

/-- `_is_date_range_valid` from `src/mora/validator.py`: decides whether
`[startdate, enddate)` lies within the validity of the parent object,
given the effects the store scope returns for the window. -/
def _is_date_range_valid (startdate enddate : Time) (effects : List Effect) : Bool :=
  if startdate ≥ enddate then false
  else dateRangeLoop startdate enddate none effects

/-- The per-effect state condition of `_is_date_range_valid`: the
`gyldighed` list is non-empty and every entry is `"Aktiv"`. -/
def effectStateOk (e : Effect) : Prop :=
  e.gyldigheder ≠ [] ∧ ∀ v ∈ e.gyldigheder, v = "Aktiv"

instance (e : Effect) : Decidable (effectStateOk e) := by
  unfold effectStateOk; infer_instance

/-- The property claimed for the date-range check: the effects gaplessly
span the whole candidate range `[startdate, enddate)` with satisfying
state — the list is non-empty, the first effect starts no later than
`startdate`, each effect's end exactly equals the next effect's start,
every effect's state list is non-empty and all-`"Aktiv"`, and the last
effect ends no earlier than `enddate`. -/
def gaplesslySpans (startdate enddate : Time) (effects : List Effect) : Prop :=
  effects ≠ [] ∧
  (∀ e, effects.head? = some e → e.start ≤ startdate) ∧
  List.Chain' (fun a b => b.start = a.stop) effects ∧
  (∀ e ∈ effects, effectStateOk e) ∧
  (∀ e, effects.getLast? = some e → enddate ≤ e.stop)

/-- Insert an effect into a start-ordered list, keeping the order. -/
def insertByStart (e : Effect) : List Effect → List Effect
  | [] => [e]
  | f :: rest => if e.start ≤ f.start then e :: f :: rest else f :: insertByStart e rest

/-- Sort a list of effects by their start boundary. -/
def sortByStart (l : List Effect) : List Effect := l.foldr insertByStart []

/-- Clip one registration slice to a relevance window, dropping it when
the intersection is empty. -/
def clipEffect (wfrom wto : Time) (e : Effect) : Option Effect :=
  if max e.start wfrom < min e.stop wto then
    some ⟨max e.start wfrom, min e.stop wto, e.gyldigheder⟩
  else none

/-- Modelled from the spec: the store scope's `get_effects` (the `lora`
connector module is not among the provided sources).  Per the external
interface contract, the store returns the registration slices already
constrained to the relevance window, in order: each slice is clipped to
the window, empty intersections are dropped, and the result is ordered by
start. -/
def get_effects (wfrom wto : Time) (regs : List Effect) : List Effect :=
  sortByStart (regs.filterMap (clipEffect wfrom wto))

/-- The three-slice timeline of the continuity scenario:
Active 2017-01-01 → 2017-08-29, Inactive -infinity → 2017-01-01,
Inactive 2017-08-29 → infinity. -/
def timeline2017 : List Effect :=
  [⟨Time.fin 20170101, Time.fin 20170829, ["Aktiv"]⟩,
   ⟨⊥, Time.fin 20170101, ["Inaktiv"]⟩,
   ⟨Time.fin 20170829, ((⊤ : WithTop ℤ) : Time), ["Inaktiv"]⟩]

/-- The state condition of `_is_date_range_valid`, as the boolean the code
tests: the check fails exactly when `effectStateOk` fails. -/
lemma stateBool_eq_false_iff (e : Effect) :
    (e.gyldigheder.isEmpty || e.gyldigheder.any (fun v => v ≠ "Aktiv")) = false ↔
      effectStateOk e := by
  simp [effectStateOk, List.isEmpty_iff, List.any_eq_true]

/-- What remains to be checked by `dateRangeLoop` once `previous_end` is
the timestamp `p`: each next effect must start exactly at the running end,
have a satisfying state, and the final end must reach `enddate`. -/
def covFrom (enddate : Time) : Time → List Effect → Prop
  | p, [] => enddate ≤ p
  | p, e :: rest => e.start = p ∧ effectStateOk e ∧ covFrom enddate e.stop rest

lemma dateRangeLoop_some_iff (sd ed : Time) :
    ∀ (l : List Effect) (p : Time),
      dateRangeLoop sd ed (some p) l = true ↔ covFrom ed p l := by
  intro l
  induction l with
  | nil =>
    intro p
    simp [dateRangeLoop, covFrom, ge_iff_le]
  | cons e rest ih =>
    intro p
    by_cases hb : e.start = p
    · by_cases hsb : (e.gyldigheder.isEmpty || e.gyldigheder.any fun v => v ≠ "Aktiv") = true
      · have hs : ¬ effectStateOk e := by
          intro hok
          rw [(stateBool_eq_false_iff e).mpr hok] at hsb
          exact Bool.false_ne_true hsb
        have hL : dateRangeLoop sd ed (some p) (e :: rest) = false := by
          simp only [dateRangeLoop, hb, decide_eq_true_eq]
          simp
          intro h1 h2
          exact absurd ⟨h1, h2⟩ hs
        rw [hL]
        simp only [covFrom, Bool.false_eq_true, false_iff]
        intro hcon
        exact hs hcon.2.1
      · have hsf : (e.gyldigheder.isEmpty || e.gyldigheder.any fun v => v ≠ "Aktiv") = false :=
          Bool.eq_false_iff.mpr hsb
        have hs : effectStateOk e := (stateBool_eq_false_iff e).mp hsf
        have hL : dateRangeLoop sd ed (some p) (e :: rest) =
            dateRangeLoop sd ed (some e.stop) rest := by
          simp [dateRangeLoop, hb, hsf]
          intro _
          exact ⟨hs.1, hs.2⟩
        rw [hL, ih]
        simp only [covFrom]
        exact ⟨fun h => ⟨hb, hs, h⟩, fun h => h.2.2⟩
    · have hL : dateRangeLoop sd ed (some p) (e :: rest) = false := by
        simp [dateRangeLoop, hb]
      rw [hL]
      simp only [covFrom, Bool.false_eq_true, false_iff]
      intro hcon
      exact hb hcon.1

lemma covFrom_iff (ed : Time) :
    ∀ (l : List Effect) (p : Time),
      covFrom ed p l ↔
        ((∀ e, l.head? = some e → e.start = p) ∧
         List.Chain' (fun a b => b.start = a.stop) l ∧
         (∀ e ∈ l, effectStateOk e) ∧
         (∀ e, l.getLast? = some e → ed ≤ e.stop) ∧
         (l = [] → ed ≤ p)) := by
  intro l
  induction l with
  | nil =>
    intro p
    simp [covFrom]
  | cons e rest ih =>
    intro p
    have hstep : covFrom ed p (e :: rest) ↔
        (e.start = p ∧ effectStateOk e ∧ covFrom ed e.stop rest) := Iff.rfl
    rw [hstep, ih e.stop]
    cases rest with
    | nil =>
      simp only [List.head?_cons, Option.some.injEq, forall_eq', List.chain'_singleton,
        List.forall_mem_singleton, List.getLast?_singleton, List.head?_nil,
        List.getLast?_nil, reduceCtorEq, false_implies, forall_const, implies_true,
        true_and, and_true, List.not_mem_nil, List.chain'_nil, List.cons_ne_nil,
        forall_true_left]
    | cons f rest' =>
      simp only [List.head?_cons, Option.some.injEq, forall_eq', List.chain'_cons,
        List.forall_mem_cons, List.getLast?_cons_cons, reduceCtorEq, false_implies,
        and_true, List.cons_ne_nil]
      tauto

lemma gaplesslySpans_cons (sd ed : Time) (e : Effect) (rest : List Effect) :
    gaplesslySpans sd ed (e :: rest) ↔
      e.start ≤ sd ∧ effectStateOk e ∧ covFrom ed e.stop rest := by
  rw [show covFrom ed e.stop rest ↔ _ from covFrom_iff ed rest e.stop]
  unfold gaplesslySpans
  cases rest with
  | nil =>
    simp only [ne_eq, List.cons_ne_nil, not_false_iff, true_and, List.head?_cons,
      Option.some.injEq, forall_eq', List.chain'_singleton, List.forall_mem_singleton,
      List.getLast?_singleton, List.head?_nil, List.getLast?_nil, reduceCtorEq,
      false_implies, forall_const, implies_true, and_true, List.not_mem_nil,
      List.chain'_nil, forall_true_left]
  | cons f rest' =>
    simp only [ne_eq, List.cons_ne_nil, not_false_iff, true_and, List.head?_cons,
      Option.some.injEq, forall_eq', List.chain'_cons, List.forall_mem_cons,
      List.getLast?_cons_cons, reduceCtorEq, false_implies, and_true]
    tauto

/-- C1: for every candidate range `[startdate, enddate)` with
`startdate < enddate` and every sequence of effects returned for the
clipped window, `_is_date_range_valid` returns `true` iff the effects
gaplessly span the whole candidate range with satisfying state; moreover
on the three-slice 2017 timeline the check accepts
`[2017-01-01, 2017-08-29)` and rejects `[2017-01-01, 2017-09-01)`. -/
theorem date_range_valid_iff_gapless :
    (∀ (sd ed : Time) (effects : List Effect), sd < ed →
      (_is_date_range_valid sd ed effects = true ↔ gaplesslySpans sd ed effects)) ∧
    _is_date_range_valid (Time.fin 20170101) (Time.fin 20170829)
      (get_effects (Time.fin 20170101) (Time.fin 20170829) timeline2017) = true ∧
    _is_date_range_valid (Time.fin 20170101) (Time.fin 20170901)
      (get_effects (Time.fin 20170101) (Time.fin 20170901) timeline2017) = false := by
  refine ⟨?_, by decide, by decide⟩
  intro sd ed effects h
  have hne : ¬ (sd ≥ ed) := not_le.mpr h
  unfold _is_date_range_valid
  rw [if_neg hne]
  cases effects with
  | nil =>
    constructor
    · intro hfalse
      exact absurd hfalse (by simp [dateRangeLoop])
    · intro hg
      exact absurd rfl hg.1
  | cons e rest =>
    rw [gaplesslySpans_cons]
    by_cases hb : sd < e.start
    · have hL : dateRangeLoop sd ed none (e :: rest) = false := by
        simp [dateRangeLoop, hb]
      rw [hL]
      simp only [Bool.false_eq_true, false_iff]
      intro hcon
      exact absurd hcon.1 (not_le.mpr hb)
    · have hble : e.start ≤ sd := not_lt.mp hb
      by_cases hsb : (e.gyldigheder.isEmpty || e.gyldigheder.any fun v => v ≠ "Aktiv") = true
      · have hs : ¬ effectStateOk e := by
          intro hok
          rw [(stateBool_eq_false_iff e).mpr hok] at hsb
          exact Bool.false_ne_true hsb
        have hL : dateRangeLoop sd ed none (e :: rest) = false := by
          simp only [dateRangeLoop, hb]
          simp
          intro h1 h2
          exact absurd ⟨h1, h2⟩ hs
        rw [hL]
        simp only [Bool.false_eq_true, false_iff]
        intro hcon
        exact hs hcon.2.1
      · have hsf : (e.gyldigheder.isEmpty || e.gyldigheder.any fun v => v ≠ "Aktiv") = false :=
          Bool.eq_false_iff.mpr hsb
        have hs : effectStateOk e := (stateBool_eq_false_iff e).mp hsf
        have hL : dateRangeLoop sd ed none (e :: rest) =
            dateRangeLoop sd ed (some e.stop) rest := by
          simp [dateRangeLoop, hb, hsf]
          intro _
          exact ⟨hs.1, hs.2⟩
        rw [hL, dateRangeLoop_some_iff]
        exact ⟨fun h2 => ⟨hble, hs, h2⟩, fun h2 => h2.2.2⟩

theorem date_range_valid_iff_gapless_witness :
    Time.fin 20170101 < Time.fin 20170829 ∧
    gaplesslySpans (Time.fin 20170101) (Time.fin 20170829)
      [⟨Time.fin 20170101, Time.fin 20170829, ["Aktiv"]⟩] :=
  ⟨by decide,
   (date_range_valid_iff_gapless.1 (Time.fin 20170101) (Time.fin 20170829)
      [⟨Time.fin 20170101, Time.fin 20170829, ["Aktiv"]⟩] (by decide)).mp (by decide)⟩

/-- C8: a candidate interval whose start is greater than or equal to its
end is always invalid, whatever the store contents: `_is_date_range_valid`
returns `false` for every effects list. -/
theorem degenerate_range_always_invalid :
    ∀ (sd ed : Time) (effects : List Effect), ed ≤ sd →
      _is_date_range_valid sd ed effects = false := by
  intro sd ed effects h
  unfold _is_date_range_valid
  rw [if_pos h]

theorem degenerate_range_always_invalid_witness :
    Time.fin 20170101 ≤ Time.fin 20170101 ∧
    _is_date_range_valid (Time.fin 20170101) (Time.fin 20170101) timeline2017 = false :=
  ⟨by decide,
   degenerate_range_always_invalid (Time.fin 20170101) (Time.fin 20170101)
     timeline2017 (by decide)⟩

/-- One org-unit object as the ancestry validator reads it from the
store: the `[0]` entries of `relationer['overordnet']`,
`relationer['tilhoerer']` and `tilstande['organisationenhedgyldighed']`
are the only fields `is_candidate_parent_valid` accesses, so they are
modelled as single fields. -/
structure Node where
  overordnet : String
  tilhoerer : String
  gyldighed : String
  deriving DecidableEq, Repr

/-- The validation error codes raised by the validators modelled here. -/
inductive VErr
  | V_CANNOT_MOVE_ROOT_ORG_UNIT
  | V_ORG_UNIT_MOVE_TO_CHILD
  | V_DATE_OUTSIDE_ORG_UNIT_RANGE
  | V_DATE_OUTSIDE_EMPL_RANGE
  | OTHER_VALIDATION
  deriving DecidableEq, Repr

/-- The recursive walk `is_node_valid` nested inside
`is_candidate_parent_valid` (`src/mora/validator.py`, lines 121-140).
The Python recursion is unbounded; the embedding adds a `fuel` counter to
make it total, with `none` meaning the recursion has not returned within
`fuel` calls.  The source returns `False` when the visited node is the
unit being moved, `False` when the node's first validity state equals
`'Inaktiv'`, `True` when the node is its hierarchy root, and otherwise
recurses on the node's parent. -/
def is_node_valid (store : String → Node) (old_unitid : String) :
    Nat → String → Option Bool
  | 0, _ => none
  | fuel + 1, node_uuid =>
    if node_uuid = old_unitid then some false
    else if (store node_uuid).gyldighed = "Inaktiv" then some false
    else if (store node_uuid).overordnet = (store node_uuid).tilhoerer then some true
    else is_node_valid store old_unitid fuel (store node_uuid).overordnet

/-- `is_candidate_parent_valid` from `src/mora/validator.py`: reject
moving the root of a hierarchy, then walk upward from the candidate
parent.  The outer `Option` is the fuel of the inner walk. -/
def is_candidate_parent_valid (store : String → Node) (fuel : Nat)
    (old_unitid new_unitid : String) : Option (Except VErr Unit) :=
  if (store old_unitid).overordnet = (store old_unitid).tilhoerer then
    some (.error .V_CANNOT_MOVE_ROOT_ORG_UNIT)
  else
    (is_node_valid store old_unitid fuel new_unitid).map
      (fun ok => if ok then .ok () else .error .V_ORG_UNIT_MOVE_TO_CHILD)

/-- The nodes on which `is_node_valid` is invoked during the upward walk,
in visiting order. -/
def visitedChain (store : String → Node) (old_unitid : String) :
    Nat → String → List String
  | 0, _ => []
  | fuel + 1, node_uuid =>
    node_uuid ::
      (if node_uuid = old_unitid then []
       else if (store node_uuid).gyldighed = "Inaktiv" then []
       else if (store node_uuid).overordnet = (store node_uuid).tilhoerer then []
       else visitedChain store old_unitid fuel (store node_uuid).overordnet)

/-- A store whose parent map contains the cycle A → B → A, not passing
through any hierarchy root: every node is active, neither A nor B is its
own root, and the moved unit C is outside the cycle. -/
def cyclicStore : String → Node := fun u =>
  if u = "A" then ⟨"B", "O", "Aktiv"⟩
  else if u = "B" then ⟨"A", "O", "Aktiv"⟩
  else ⟨"R", "O", "Aktiv"⟩

/-- C3: on the cyclic store the upward walk of
`is_candidate_parent_valid` never returns, for any amount of fuel — the
source recursion has no visited-set or depth bound, so it recurses
forever on a cycle that avoids the root and the moved unit. -/
theorem ancestry_walk_diverges_on_cycle :
    ∀ fuel : Nat, is_candidate_parent_valid cyclicStore fuel "C" "A" = none := by
  intro fuel
  have key : ∀ f : Nat,
      is_node_valid cyclicStore "C" f "A" = none ∧
      is_node_valid cyclicStore "C" f "B" = none := by
    intro f
    induction f with
    | zero => exact ⟨rfl, rfl⟩
    | succ n ih =>
      refine ⟨?_, ?_⟩
      · have hstep : is_node_valid cyclicStore "C" (n + 1) "A" =
            is_node_valid cyclicStore "C" n "B" := rfl
        rw [hstep]
        exact ih.2
      · have hstep : is_node_valid cyclicStore "C" (n + 1) "B" =
            is_node_valid cyclicStore "C" n "A" := rfl
        rw [hstep]
        exact ih.1
  show is_candidate_parent_valid cyclicStore fuel "C" "A" = none
  unfold is_candidate_parent_valid
  rw [if_neg (by decide)]
  rw [(key fuel).1]
  rfl

/-- C5: whenever the unit being moved is the root of its hierarchy (its
`overordnet` relation equals its `tilhoerer` relation), the ancestry
validation fails immediately with the cannot-move-root error, for every
candidate parent and before any node of the walk is consulted. -/
theorem root_move_always_rejected :
    ∀ (store : String → Node) (fuel : Nat) (old_unitid new_unitid : String),
      (store old_unitid).overordnet = (store old_unitid).tilhoerer →
      is_candidate_parent_valid store fuel old_unitid new_unitid =
        some (.error .V_CANNOT_MOVE_ROOT_ORG_UNIT) := by
  intro store fuel old_unitid new_unitid h
  unfold is_candidate_parent_valid
  rw [if_pos h]

theorem root_move_always_rejected_witness :
    ((fun _ : String => (⟨"O", "O", "Aktiv"⟩ : Node)) "R").overordnet =
      ((fun _ : String => (⟨"O", "O", "Aktiv"⟩ : Node)) "R").tilhoerer ∧
    is_candidate_parent_valid (fun _ => ⟨"O", "O", "Aktiv"⟩) 0 "R" "A" =
      some (.error .V_CANNOT_MOVE_ROOT_ORG_UNIT) :=
  ⟨rfl, root_move_always_rejected (fun _ => ⟨"O", "O", "Aktiv"⟩) 0 "R" "A" rfl⟩

lemma visited_moved_unit_walk_false :
    ∀ (store : String → Node) (old_unitid : String) (fuel : Nat) (node : String),
      old_unitid ∈ visitedChain store old_unitid fuel node →
      is_node_valid store old_unitid fuel node = some false := by
  intro store old_unitid fuel
  induction fuel with
  | zero =>
    intro node h
    exact absurd h (List.not_mem_nil _)
  | succ n ih =>
    intro node h
    by_cases h1 : node = old_unitid
    · simp [is_node_valid, h1]
    · by_cases h2 : (store node).gyldighed = "Inaktiv"
      · simp only [visitedChain, h1, if_false, h2, if_true] at h
        rcases List.mem_cons.mp h with h' | h'
        · exact absurd h'.symm h1
        · exact absurd h' (List.not_mem_nil _)
      · by_cases h3 : (store node).overordnet = (store node).tilhoerer
        · simp only [visitedChain, h1, if_false, h2, h3, if_true] at h
          rcases List.mem_cons.mp h with h' | h'
          · exact absurd h'.symm h1
          · exact absurd h' (List.not_mem_nil _)
        · simp only [visitedChain, h1, if_false, h2, h3] at h
          rcases List.mem_cons.mp h with h' | h'
          · exact absurd h'.symm h1
          · simp only [is_node_valid, h1, if_false, h2, h3]
            exact ih (store node).overordnet h'

/-- The 3-level chain root → A → B used by the cycle scenario: every node
is active, R is the root of the hierarchy, A's parent is R, B's parent is
A. -/
def chainStore : String → Node := fun u =>
  if u = "R" then ⟨"O", "O", "Aktiv"⟩
  else if u = "A" then ⟨"R", "O", "Aktiv"⟩
  else ⟨"A", "O", "Aktiv"⟩

/-- C6: whenever the upward walk visits a node equal to the unit being
moved, the move is rejected with the move-to-own-subtree (cycle) error;
in particular, in the chain root → A → B, moving B with candidate parent
B fails with that error. -/
theorem visiting_moved_unit_rejected :
    (∀ (store : String → Node) (fuel : Nat) (old_unitid new_unitid : String),
      ¬ (store old_unitid).overordnet = (store old_unitid).tilhoerer →
      old_unitid ∈ visitedChain store old_unitid fuel new_unitid →
      is_candidate_parent_valid store fuel old_unitid new_unitid =
        some (.error .V_ORG_UNIT_MOVE_TO_CHILD)) ∧
    is_candidate_parent_valid chainStore 1 "B" "B" =
      some (.error .V_ORG_UNIT_MOVE_TO_CHILD) := by
  constructor
  · intro store fuel old_unitid new_unitid hroot hmem
    unfold is_candidate_parent_valid
    rw [if_neg hroot, visited_moved_unit_walk_false store old_unitid fuel new_unitid hmem]
    rfl
  · rfl

theorem visiting_moved_unit_rejected_witness :
    (¬ (chainStore "B").overordnet = (chainStore "B").tilhoerer) ∧
    "B" ∈ visitedChain chainStore "B" 1 "B" ∧
    is_candidate_parent_valid chainStore 1 "B" "B" =
      some (.error .V_ORG_UNIT_MOVE_TO_CHILD) :=
  ⟨by decide, by decide,
   visiting_moved_unit_rejected.1 chainStore 1 "B" "B" (by decide) (by decide)⟩

/-- C7 (amended): the walk fails at a visited node exactly on the state
`"Inaktiv"` — if the walk accepts, no visited node is `"Inaktiv"`, and
visiting an `"Inaktiv"` node makes the walk return `false`.  (The source
compares the state for equality with `'Inaktiv'` rather than for
inequality with `'Aktiv'`.) -/
theorem walk_accepts_only_without_inaktiv :
    (∀ (store : String → Node) (old_unitid : String) (fuel : Nat) (node n : String),
      is_node_valid store old_unitid fuel node = some true →
      n ∈ visitedChain store old_unitid fuel node →
      (store n).gyldighed ≠ "Inaktiv") ∧
    (∀ (store : String → Node) (old_unitid : String) (fuel : Nat) (node n : String),
      n ∈ visitedChain store old_unitid fuel node →
      (store n).gyldighed = "Inaktiv" →
      is_node_valid store old_unitid fuel node = some false) := by
  constructor
  · intro store old_unitid fuel
    induction fuel with
    | zero =>
      intro node n _ hmem
      exact absurd hmem (List.not_mem_nil _)
    | succ k ih =>
      intro node n htrue hmem
      by_cases h1 : node = old_unitid
      · simp [is_node_valid, h1] at htrue
      · by_cases h2 : (store node).gyldighed = "Inaktiv"
        · simp [is_node_valid, h1, h2] at htrue
        · by_cases h3 : (store node).overordnet = (store node).tilhoerer
          · simp only [visitedChain, h1, if_false, h2, h3, if_true] at hmem
            rcases List.mem_cons.mp hmem with h' | h'
            · rw [h']; exact h2
            · exact absurd h' (List.not_mem_nil _)
          · simp only [visitedChain, h1, if_false, h2, h3] at hmem
            rcases List.mem_cons.mp hmem with h' | h'
            · rw [h']; exact h2
            · simp only [is_node_valid, h1, if_false, h2, h3] at htrue
              exact ih (store node).overordnet n htrue h'
  · intro store old_unitid fuel
    induction fuel with
    | zero =>
      intro node n hmem
      exact absurd hmem (List.not_mem_nil _)
    | succ k ih =>
      intro node n hmem hinakt
      by_cases h1 : node = old_unitid
      · simp [is_node_valid, h1]
      · by_cases h2 : (store node).gyldighed = "Inaktiv"
        · simp [is_node_valid, h1, h2]
        · by_cases h3 : (store node).overordnet = (store node).tilhoerer
          · simp only [visitedChain, h1, if_false, h2, h3, if_true] at hmem
            rcases List.mem_cons.mp hmem with h' | h'
            · rw [h'] at hinakt; exact absurd hinakt h2
            · exact absurd h' (List.not_mem_nil _)
          · simp only [visitedChain, h1, if_false, h2, h3] at hmem
            rcases List.mem_cons.mp hmem with h' | h'
            · rw [h'] at hinakt; exact absurd hinakt h2
            · simp only [is_node_valid, h1, if_false, h2, h3]
              exact ih (store node).overordnet n h' hinakt

theorem walk_accepts_only_without_inaktiv_witness :
    is_node_valid chainStore "B" 2 "A" = some true ∧
    "A" ∈ visitedChain chainStore "B" 2 "A" ∧
    (chainStore "A").gyldighed ≠ "Inaktiv" :=
  ⟨by decide, by decide,
   walk_accepts_only_without_inaktiv.1 chainStore "B" 2 "A" "A" (by decide) (by decide)⟩

/-- A store in which the candidate parent A is the hierarchy root and
carries a validity state that is neither `"Aktiv"` nor `"Inaktiv"`. -/
def otherStateStore : String → Node := fun u =>
  if u = "B" then ⟨"A", "O", "Aktiv"⟩
  else if u = "A" then ⟨"O", "O", "Ukendt"⟩
  else ⟨"R", "O", "Aktiv"⟩

/-- C7 (counterexample to the claim as stated): moving B under candidate
parent A is accepted although the visited node A has a state that is not
`"Aktiv"` — the source only rejects the exact state `"Inaktiv"`. -/
theorem move_accepted_through_non_active_ancestor :
    is_candidate_parent_valid otherStateStore 1 "B" "A" = some (.ok ()) ∧
    "A" ∈ visitedChain otherStateStore "B" 1 "A" ∧
    (otherStateStore "A").gyldighed ≠ "Aktiv" := by
  refine ⟨rfl, by decide, by decide⟩

/-- One entry of `tilstande['organisationenhedgyldighed']`: a state value
and its `virkning` boundaries. -/
structure Gyldighed where
  gyldighed : String
  virkning_from : Time
  virkning_to : Time
  deriving DecidableEq, Repr

/-- An org-unit registration as read by the endpoint-date lookup: its
list of `organisationenhedgyldighed` entries. -/
structure OrgUnit where
  organisationenhedgyldighed : List Gyldighed
  deriving DecidableEq, Repr

/-- The loop of `_get_org_unit_endpoint_date`: scan the `gyldighed`
entries in order; at the first `'Aktiv'` entry return its `to` (when
`enddate`) or `from` boundary; raise when no entry is `'Aktiv'`. -/
def endpointLoop (enddate : Bool) : List Gyldighed → Except String Time
  | [] => .error "the unit did not have an end date!"
  | g :: rest =>
    if g.gyldighed = "Aktiv" then
      .ok (if enddate then g.virkning_to else g.virkning_from)
    else endpointLoop enddate rest

/-- `_get_org_unit_endpoint_date` from `src/mora/validator.py`,
lines 147-165. -/
def _get_org_unit_endpoint_date (org_unit : OrgUnit) (enddate : Bool) :
    Except String Time :=
  endpointLoop enddate org_unit.organisationenhedgyldighed

/-- The child loop of `is_inactivation_date_valid`: return `false` as
soon as some child's end date exceeds the candidate end date, propagating
the endpoint-lookup error. -/
def childrenLoop (candidate_enddate : Time) : List OrgUnit → Except String Bool
  | [] => .ok true
  | c :: rest =>
    match _get_org_unit_endpoint_date c true with
    | .error e => .error e
    | .ok t =>
      if candidate_enddate < t then .ok false
      else childrenLoop candidate_enddate rest

/-- `is_inactivation_date_valid` from `src/mora/validator.py`,
lines 168-190: the unit's own registration and its children's
registrations are passed directly in place of the store lookups. -/
def is_inactivation_date_valid (org_unit : OrgUnit) (children : List OrgUnit)
    (candidate_enddate : Time) : Except String Bool :=
  match _get_org_unit_endpoint_date org_unit false with
  | .error e => .error e
  | .ok s =>
    if candidate_enddate ≤ s then .ok false
    else childrenLoop candidate_enddate children

lemma endpointLoop_all_inactive (b : Bool) :
    ∀ l : List Gyldighed, (∀ g ∈ l, g.gyldighed ≠ "Aktiv") →
      endpointLoop b l = .error "the unit did not have an end date!" := by
  intro l
  induction l with
  | nil => intro _; rfl
  | cons g rest ih =>
    intro h
    simp only [endpointLoop, h g (List.mem_cons_self g rest), if_false]
    exact ih (fun x hx => h x (List.mem_cons_of_mem g hx))

lemma endpointLoop_first_active (b : Bool) :
    ∀ (l1 : List Gyldighed) (g : Gyldighed) (l2 : List Gyldighed),
      (∀ h ∈ l1, h.gyldighed ≠ "Aktiv") → g.gyldighed = "Aktiv" →
      endpointLoop b (l1 ++ g :: l2) =
        .ok (if b then g.virkning_to else g.virkning_from) := by
  intro l1
  induction l1 with
  | nil =>
    intro g l2 _ hg
    simp [endpointLoop, hg]
  | cons h1 rest ih =>
    intro g l2 hall hg
    have hne := hall h1 (List.mem_cons_self h1 rest)
    simp only [List.cons_append, endpointLoop, hne, if_false]
    exact ih g l2 (fun x hx => hall x (List.mem_cons_of_mem h1 hx)) hg

/-- C10: when no `gyldighed` entry is `'Aktiv'` the endpoint lookup
raises (for both the start-date and the end-date variant); when a first
`'Aktiv'` entry exists it returns that entry's boundary, ignoring all
later `'Aktiv'` entries. -/
theorem endpoint_date_first_active :
    (∀ (org_unit : OrgUnit) (enddate : Bool),
      (∀ g ∈ org_unit.organisationenhedgyldighed, g.gyldighed ≠ "Aktiv") →
      _get_org_unit_endpoint_date org_unit enddate =
        .error "the unit did not have an end date!") ∧
    (∀ (l1 : List Gyldighed) (g : Gyldighed) (l2 : List Gyldighed),
      (∀ h ∈ l1, h.gyldighed ≠ "Aktiv") → g.gyldighed = "Aktiv" →
      _get_org_unit_endpoint_date ⟨l1 ++ g :: l2⟩ true = .ok g.virkning_to ∧
      _get_org_unit_endpoint_date ⟨l1 ++ g :: l2⟩ false = .ok g.virkning_from) := by
  constructor
  · intro org_unit enddate h
    exact endpointLoop_all_inactive enddate org_unit.organisationenhedgyldighed h
  · intro l1 g l2 hall hg
    constructor
    · exact endpointLoop_first_active true l1 g l2 hall hg
    · exact endpointLoop_first_active false l1 g l2 hall hg

theorem endpoint_date_first_active_witness :
    ((∀ g ∈ (OrgUnit.mk [⟨"Inaktiv", ⊥, Time.fin 20170101⟩]).organisationenhedgyldighed,
        g.gyldighed ≠ "Aktiv") ∧
     _get_org_unit_endpoint_date ⟨[⟨"Inaktiv", ⊥, Time.fin 20170101⟩]⟩ true =
        .error "the unit did not have an end date!") ∧
    ((∀ h ∈ [⟨"Inaktiv", ⊥, Time.fin 20170101⟩], Gyldighed.gyldighed h ≠ "Aktiv") ∧
     _get_org_unit_endpoint_date
        ⟨[⟨"Inaktiv", ⊥, Time.fin 20170101⟩] ++
          ⟨"Aktiv", Time.fin 20170101, Time.fin 20170829⟩ ::
            [⟨"Aktiv", Time.fin 20180101, Time.fin 20180601⟩]⟩ true =
        .ok (Time.fin 20170829) ∧
     _get_org_unit_endpoint_date
        ⟨[⟨"Inaktiv", ⊥, Time.fin 20170101⟩] ++
          ⟨"Aktiv", Time.fin 20170101, Time.fin 20170829⟩ ::
            [⟨"Aktiv", Time.fin 20180101, Time.fin 20180601⟩]⟩ false =
        .ok (Time.fin 20170101)) :=
  ⟨⟨by decide,
    endpoint_date_first_active.1 ⟨[⟨"Inaktiv", ⊥, Time.fin 20170101⟩]⟩ true (by decide)⟩,
   ⟨by decide,
    endpoint_date_first_active.2 [⟨"Inaktiv", ⊥, Time.fin 20170101⟩]
      ⟨"Aktiv", Time.fin 20170101, Time.fin 20170829⟩
      [⟨"Aktiv", Time.fin 20180101, Time.fin 20180601⟩] (by decide) (by decide)⟩⟩

lemma childrenLoop_ok_true_iff (cand : Time) :
    ∀ children : List OrgUnit,
      (∀ c ∈ children, ∃ t, _get_org_unit_endpoint_date c true = .ok t) →
      (childrenLoop cand children = .ok true ↔
        ∀ c ∈ children, ∀ t, _get_org_unit_endpoint_date c true = .ok t → t ≤ cand) := by
  intro children
  induction children with
  | nil =>
    intro _
    simp [childrenLoop]
  | cons c rest ih =>
    intro hok
    obtain ⟨t, ht⟩ := hok c (List.mem_cons_self c rest)
    have hrest := ih (fun x hx => hok x (List.mem_cons_of_mem c hx))
    simp only [childrenLoop, ht]
    by_cases hlt : cand < t
    · rw [if_pos hlt]
      constructor
      · intro hcon
        exact absurd (Except.ok.inj hcon) Bool.false_ne_true
      · intro h
        have hle := h c (List.mem_cons_self c rest) t ht
        exact absurd (lt_of_lt_of_le hlt hle) (lt_irrefl cand)
    · rw [if_neg hlt, hrest]
      constructor
      · intro h x hx t' ht'
        rcases List.mem_cons.mp hx with h' | h'
        · subst h'
          have ht'' : (Except.ok t : Except String Time) = Except.ok t' :=
            ht.symm.trans ht'
          rw [← Except.ok.inj ht'']
          exact not_lt.mp hlt
        · exact h x h' t' ht'
      · intro h x hx t' ht'
        exact h x (List.mem_cons_of_mem c hx) t' ht'

/-- C9: given that the unit's own start-date lookup succeeds with `s` and
every child's end-date lookup succeeds, the inactivation-date check
returns `true` iff the candidate end date is strictly greater than `s`
and at least every child's end date; and a candidate less than or equal
to `s` (in particular, equal to the unit's own start) is rejected without
consulting the children. -/
theorem inactivation_date_valid_iff :
    (∀ (org_unit : OrgUnit) (children : List OrgUnit) (cand s : Time),
      _get_org_unit_endpoint_date org_unit false = .ok s →
      (∀ c ∈ children, ∃ t, _get_org_unit_endpoint_date c true = .ok t) →
      (is_inactivation_date_valid org_unit children cand = .ok true ↔
        (s < cand ∧
         ∀ c ∈ children, ∀ t, _get_org_unit_endpoint_date c true = .ok t → t ≤ cand))) ∧
    (∀ (org_unit : OrgUnit) (children : List OrgUnit) (cand s : Time),
      _get_org_unit_endpoint_date org_unit false = .ok s → cand ≤ s →
      is_inactivation_date_valid org_unit children cand = .ok false) := by
  constructor
  · intro org_unit children cand s hs hok
    simp only [is_inactivation_date_valid, hs]
    by_cases hle : cand ≤ s
    · rw [if_pos hle]
      constructor
      · intro hcon
        exact absurd (Except.ok.inj hcon) Bool.false_ne_true
      · intro hcon
        exact absurd hle (not_le.mpr hcon.1)
    · rw [if_neg hle, childrenLoop_ok_true_iff cand children hok]
      exact ⟨fun h => ⟨not_le.mp hle, h⟩, fun h => h.2⟩
  · intro org_unit children cand s hs hle
    simp only [is_inactivation_date_valid, hs]
    rw [if_pos hle]

theorem inactivation_date_valid_iff_witness :
    is_inactivation_date_valid ⟨[⟨"Aktiv", Time.fin 20170101, Time.fin 20170829⟩]⟩
      [⟨[⟨"Aktiv", Time.fin 20170201, Time.fin 20170301⟩]⟩] (Time.fin 20170301) =
      .ok true ∧
    is_inactivation_date_valid ⟨[⟨"Aktiv", Time.fin 20170101, Time.fin 20170829⟩]⟩
      [⟨[⟨"Aktiv", Time.fin 20170201, Time.fin 20170301⟩]⟩] (Time.fin 20170101) =
      .ok false :=
  ⟨(inactivation_date_valid_iff.1
      ⟨[⟨"Aktiv", Time.fin 20170101, Time.fin 20170829⟩]⟩
      [⟨[⟨"Aktiv", Time.fin 20170201, Time.fin 20170301⟩]⟩]
      (Time.fin 20170301) (Time.fin 20170101) rfl
      (by
        intro c hc
        rw [List.mem_singleton] at hc
        subst hc
        exact ⟨Time.fin 20170301, rfl⟩)).mpr
      ⟨by decide, by
        intro c hc t ht
        rw [List.mem_singleton] at hc
        subst hc
        have ht' : (Except.ok (Time.fin 20170301) : Except String Time) = Except.ok t := ht
        rw [← Except.ok.inj ht']⟩,
   inactivation_date_valid_iff.2
      ⟨[⟨"Aktiv", Time.fin 20170101, Time.fin 20170829⟩]⟩
      [⟨[⟨"Aktiv", Time.fin 20170201, Time.fin 20170301⟩]⟩]
      (Time.fin 20170101) (Time.fin 20170101) rfl (by decide)⟩

namespace splicer

/-- A half-open validity interval of a stored registration. -/
structure Interval where
  start : Time
  stop : Time
  deriving DecidableEq, Repr

/-- A stored fact: a validity interval together with its state/payload. -/
structure Registration where
  interval : Interval
  state : String
  deriving DecidableEq, Repr

/-- The optimistic-concurrency failure of the edit splicer. -/
inductive SpliceError
  | StaleEditError
  deriving DecidableEq, Repr

/-- The replacement registrations an edit computes: an optional
truncation of the old fact and the inserted new fact. -/
structure SpliceResult where
  truncate : Option Registration
  insert : Registration
  deriving DecidableEq, Repr

/-- Modelled from the spec: the EditSplicer
(`common.inactivate_old_interval` and `common.replace_relation_value`,
which implement it for the association and IT-system edit handlers, are
not among the provided sources).  The caller echoes the interval it last
read; on mismatch with the stored interval the edit fails with
`StaleEditError`, otherwise the old fact is truncated at the new start
(when the new interval starts strictly later) and the new fact is
inserted. -/
def splice (old : Registration) (old_interval_claimed : Interval)
    (new_interval : Interval) (new_state : String) :
    Except SpliceError SpliceResult :=
  if old_interval_claimed ≠ old.interval then .error .StaleEditError
  else
    .ok ⟨if old.interval.start < new_interval.start then
           some ⟨⟨old.interval.start, new_interval.start⟩, old.state⟩
         else none,
         ⟨new_interval, new_state⟩⟩

/-- C2: whenever the caller's claimed old interval differs from the
stored one, the edit fails with `StaleEditError` and no replacement
registrations are produced — the mismatching interval is never merged
with or substituted by the stored one. -/
theorem stale_edit_rejected :
    ∀ (old : Registration) (claimed new_interval : Interval) (new_state : String),
      claimed ≠ old.interval →
      splice old claimed new_interval new_state = .error .StaleEditError ∧
      ∀ r : SpliceResult, splice old claimed new_interval new_state ≠ .ok r := by
  intro old claimed new_interval new_state h
  have hL : splice old claimed new_interval new_state = .error .StaleEditError := by
    unfold splice
    rw [if_pos h]
  refine ⟨hL, ?_⟩
  intro r hcon
  rw [hL] at hcon
  exact Except.noConfusion hcon

theorem stale_edit_rejected_witness :
    ((⟨Time.fin 20160101, Time.fin 20170101⟩ : Interval) ≠
      (Registration.mk ⟨Time.fin 20160101, Time.fin 20180101⟩ "JobA").interval) ∧
    splice ⟨⟨Time.fin 20160101, Time.fin 20180101⟩, "JobA"⟩
      ⟨Time.fin 20160101, Time.fin 20170101⟩
      ⟨Time.fin 20160101, Time.fin 20190101⟩ "JobB" = .error .StaleEditError :=
  ⟨by decide,
   (stale_edit_rejected ⟨⟨Time.fin 20160101, Time.fin 20180101⟩, "JobA"⟩
      ⟨Time.fin 20160101, Time.fin 20170101⟩
      ⟨Time.fin 20160101, Time.fin 20190101⟩ "JobB" (by decide)).1⟩

end splicer

/-- A store mutation submitted to LoRa. -/
inductive Write
  | create (payload : String)
  | update (payload : String) (uuid : String)
  deriving DecidableEq, Repr

/-- `is_date_range_in_org_unit_range` from `src/mora/validator.py`:
raise `V_DATE_OUTSIDE_ORG_UNIT_RANGE` when the coverage check fails. -/
def is_date_range_in_org_unit_range (valid_from valid_to : Time)
    (effects : List Effect) : Except VErr Unit :=
  if _is_date_range_valid valid_from valid_to effects = true then .ok ()
  else .error .V_DATE_OUTSIDE_ORG_UNIT_RANGE

/-- `is_date_range_in_employee_range` from `src/mora/validator.py`:
raise `V_DATE_OUTSIDE_EMPL_RANGE` when the coverage check fails. -/
def is_date_range_in_employee_range (valid_from valid_to : Time)
    (effects : List Effect) : Except VErr Unit :=
  if _is_date_range_valid valid_from valid_to effects = true then .ok ()
  else .error .V_DATE_OUTSIDE_EMPL_RANGE

/-- `AssociationRequestHandler.prepare_create`
(`src/backend/mora/service/association.py`): run the org-unit range
check, the employee range check and the remaining validators (abstracted
as `extra`, e.g. the existing-association check whose module is not among
the provided sources), propagating the first raised error; only then
build the payload. -/
def association_prepare_create (org_unit_effects employee_effects : List Effect)
    (valid_from valid_to : Time) (extra : Except VErr Unit) (payload : String) :
    Except VErr String :=
  match is_date_range_in_org_unit_range valid_from valid_to org_unit_effects with
  | .error e => .error e
  | .ok _ =>
    match is_date_range_in_employee_range valid_from valid_to employee_effects with
    | .error e => .error e
    | .ok _ =>
      match extra with
      | .error e => .error e
      | .ok _ => .ok payload

/-- The request-handler lifecycle of
`src/backend/mora/service/handlers.py`: `__init__` performs all
validation (`prepare_*`); only a successfully initialized handler reaches
`submit`, which issues the store write. -/
def requestHandlerProcess (prepared : Except VErr String) : Except VErr Write :=
  match prepared with
  | .error e => .error e
  | .ok payload => .ok (Write.create payload)

/-- `create_organisation_unit` from `src/mora/api.py`, lines 245-252:
validate the request; on failure return HTTP 400 without issuing any
store write, otherwise create the unit.  The request validator
(`is_create_org_unit_request_valid`, not among the provided sources) is
abstracted as the boolean `valid`. -/
def create_organisation_unit (valid : Bool) (org_unit : String) :
    List Write × Nat :=
  if valid = false then ([], 400)
  else ([Write.create org_unit], 201)

lemma prepare_create_ok_implies :
    ∀ (ou emp : List Effect) (vf vt : Time) (extra : Except VErr Unit)
      (p q : String),
      association_prepare_create ou emp vf vt extra p = .ok q →
      _is_date_range_valid vf vt ou = true ∧
      _is_date_range_valid vf vt emp = true ∧
      extra = .ok () ∧ q = p := by
  intro ou emp vf vt extra p q h
  by_cases h1 : _is_date_range_valid vf vt ou = true
  · by_cases h2 : _is_date_range_valid vf vt emp = true
    · cases hex : extra with
      | error e =>
        rw [hex] at h
        simp [association_prepare_create, is_date_range_in_org_unit_range,
          is_date_range_in_employee_range, h1, h2] at h
      | ok u =>
        cases u
        rw [hex] at h
        simp [association_prepare_create, is_date_range_in_org_unit_range,
          is_date_range_in_employee_range, h1, h2] at h
        exact ⟨h1, h2, rfl, h.symm⟩
    · simp [association_prepare_create, is_date_range_in_org_unit_range,
        is_date_range_in_employee_range, h1, h2] at h
  · simp [association_prepare_create, is_date_range_in_org_unit_range, h1] at h

/-- C4: a failed engine-level validation makes the store write
unreachable — if the org-unit range check, the employee range check or
any other validator fails during request preparation, the handler
pipeline yields an error and no write; and the org-unit creation endpoint
returns HTTP 400 with an empty write list when its validation fails. -/
theorem validation_failure_prevents_write :
    (∀ (ou emp : List Effect) (vf vt : Time) (extra : Except VErr Unit) (p : String),
      (_is_date_range_valid vf vt ou = false ∨
       _is_date_range_valid vf vt emp = false ∨
       ∃ e, extra = .error e) →
      ∀ w : Write,
        requestHandlerProcess (association_prepare_create ou emp vf vt extra p) ≠
          .ok w) ∧
    (∀ (valid : Bool) (org_unit : String),
      valid = false → create_organisation_unit valid org_unit = ([], 400)) := by
  constructor
  · intro ou emp vf vt extra p hfail w hok
    cases hX : association_prepare_create ou emp vf vt extra p with
    | error e =>
      rw [hX] at hok
      exact Except.noConfusion hok
    | ok q =>
      obtain ⟨h1, h2, h3, -⟩ := prepare_create_ok_implies ou emp vf vt extra p q hX
      rcases hfail with h | h | ⟨e, he⟩
      · rw [h1] at h
        exact Bool.noConfusion h
      · rw [h2] at h
        exact Bool.noConfusion h
      · rw [h3] at he
        exact Except.noConfusion he
  · intro valid org_unit h
    subst h
    rfl

theorem validation_failure_prevents_write_witness :
    (_is_date_range_valid (Time.fin 20170101) (Time.fin 20170901)
      (get_effects (Time.fin 20170101) (Time.fin 20170901) timeline2017) = false ∨
     _is_date_range_valid (Time.fin 20170101) (Time.fin 20170901) [] = false ∨
     ∃ e, (Except.ok () : Except VErr Unit) = .error e) ∧
    (∀ w : Write,
      requestHandlerProcess
        (association_prepare_create
          (get_effects (Time.fin 20170101) (Time.fin 20170901) timeline2017) []
          (Time.fin 20170101) (Time.fin 20170901) (.ok ()) "payload") ≠ .ok w) ∧
    create_organisation_unit false "unit" = ([], 400) :=
  ⟨Or.inl (by decide),
   validation_failure_prevents_write.1
     (get_effects (Time.fin 20170101) (Time.fin 20170901) timeline2017) []
     (Time.fin 20170101) (Time.fin 20170901) (.ok ()) "payload" (Or.inl (by decide)),
   validation_failure_prevents_write.2 false "unit" rfl⟩
